import Mathlib

/-!
# Verification of the lola-ia chat backend

Shallow embedding of the Go backend of the lola-ia repository:
the in-memory store (`internal/store/memory.go`), the prompt-assembly
logic and HTTP handlers (`main.go`), and the provider error surface
(`internal/provider`).  Go strings are modelled as lists of bytes
(`List Nat`, each element a byte value); Go slices as Lean lists.
-/

/-- UTF-8 encoding of a single code point, as Go encodes string literals. -/
def encodeChar (c : Nat) : List Nat :=
  if c < 0x80 then [c]
  else if c < 0x800 then [0xC0 + c / 64, 0x80 + c % 64]
  else if c < 0x10000 then [0xE0 + c / 4096, 0x80 + (c / 64) % 64, 0x80 + c % 64]
  else [0xF0 + c / 0x40000, 0x80 + (c / 4096) % 64, 0x80 + (c / 64) % 64, 0x80 + c % 64]

/-- The UTF-8 bytes of a Lean string literal; used to transcribe the Go
string literals of the source into the byte-list model. -/
def strBytes (s : String) : List Nat :=
  s.data.flatMap (fun c => encodeChar c.toNat)

/-- Is `b` a UTF-8 continuation byte (`0x80`–`0xBF`)? -/
def isCont (b : Nat) : Bool := 0x80 ≤ b && b ≤ 0xBF

/-- UTF-8 validity of a byte sequence, as checked by Go's
`utf8.ValidString`: well-formed sequences only, rejecting overlong
encodings, surrogates and code points above `U+10FFFF`. -/
def validUtf8 : List Nat → Bool
  | [] => true
  | b :: rest =>
    if b ≤ 0x7F then validUtf8 rest
    else if b ≤ 0xC1 then false
    else if b ≤ 0xDF then
      match rest with
      | c1 :: r => isCont c1 && validUtf8 r
      | [] => false
    else if b ≤ 0xEF then
      match rest with
      | c1 :: c2 :: r =>
        (if b = 0xE0 then decide (0xA0 ≤ c1) && decide (c1 ≤ 0xBF)
         else if b = 0xED then decide (0x80 ≤ c1) && decide (c1 ≤ 0x9F)
         else isCont c1) && isCont c2 && validUtf8 r
      | _ => false
    else if b ≤ 0xF4 then
      match rest with
      | c1 :: c2 :: c3 :: r =>
        (if b = 0xF0 then decide (0x90 ≤ c1) && decide (c1 ≤ 0xBF)
         else if b = 0xF4 then decide (0x80 ≤ c1) && decide (c1 ≤ 0x8F)
         else isCont c1) && isCont c2 && isCont c3 && validUtf8 r
      | _ => false
    else false

/-- The truncation-repair loop of `buildFilesContext` (main.go):
`for !utf8.ValidString(txt) && len(txt) > 0 { txt = txt[:len(txt)-1] }`. -/
def utf8Backoff (l : List Nat) : List Nat :=
  if validUtf8 l = false ∧ 0 < l.length then
    utf8Backoff (l.take (l.length - 1))
  else l
termination_by l.length
decreasing_by
  simp only [List.length_take]
  omega

theorem validUtf8_nil : validUtf8 [] = true := rfl

/-- The repair loop always ends on a valid UTF-8 byte sequence
(the empty sequence is valid). -/
theorem validUtf8_utf8Backoff (l : List Nat) : validUtf8 (utf8Backoff l) = true := by
  have H : ∀ n, ∀ l : List Nat, l.length ≤ n → validUtf8 (utf8Backoff l) = true := by
    intro n
    induction n with
    | zero =>
      intro l hl
      have : l = [] := List.length_eq_zero.mp (Nat.le_zero.mp hl)
      subst this
      rw [utf8Backoff, if_neg (by simp)]
      rfl
    | succ n ih =>
      intro l hl
      rw [utf8Backoff]
      by_cases h : validUtf8 l = false ∧ 0 < l.length
      · rw [if_pos h]
        exact ih _ (by simp; omega)
      · rw [if_neg h]
        push_neg at h
        rcases Bool.eq_false_or_eq_true (validUtf8 l) with ht | hf
        · exact ht
        · have := h hf
          have hnil : l = [] := List.length_eq_zero.mp (by omega)
          subst hnil
          rfl
  exact H l.length l (Nat.le_refl _)

/-- The repair loop only removes bytes from the end: its result is a
prefix of its input. -/
theorem utf8Backoff_isPre (l : List Nat) : utf8Backoff l <+: l := by
  have H : ∀ n, ∀ l : List Nat, l.length ≤ n → utf8Backoff l <+: l := by
    intro n
    induction n with
    | zero =>
      intro l hl
      have : l = [] := List.length_eq_zero.mp (Nat.le_zero.mp hl)
      subst this
      rw [utf8Backoff, if_neg (by simp)]
    | succ n ih =>
      intro l hl
      rw [utf8Backoff]
      by_cases h : validUtf8 l = false ∧ 0 < l.length
      · rw [if_pos h]
        have h1 : utf8Backoff (l.take (l.length - 1)) <+: l.take (l.length - 1) :=
          ih _ (by simp; omega)
        exact h1.trans ⟨l.drop (l.length - 1), l.take_append_drop _⟩
      · rw [if_neg h]
  exact H l.length l (Nat.le_refl _)

/-- The repair loop never lengthens its input. -/
theorem utf8Backoff_length_le (l : List Nat) : (utf8Backoff l).length ≤ l.length :=
  (utf8Backoff_isPre l).length_le

/-! ## Data model (`internal/models.go`) -/

/-- Message role (`internal.Role`): `user` or `assistant`. -/
inductive Role where
  | user
  | assistant
deriving DecidableEq, Repr

/-- `internal.Message`: role, content and creation time.  The content is
the raw byte string; the timestamp is an abstract clock value. -/
structure Message where
  role : Role
  content : List Nat
  createdAt : Nat
deriving DecidableEq, Repr

/-- `internal.KnowledgeFile`: name (unique key), declared byte size and
full content, all as the Go program holds them. -/
structure KnowledgeFile where
  name : List Nat
  size : Int
  text : List Nat
deriving DecidableEq, Repr

/-- `store.MemoryStore`: the messages slice and the knowledge slice.
The Go mutex only serializes access and is not part of the state. -/
structure Store where
  messages : List Message
  knowledge : List KnowledgeFile
deriving DecidableEq, Repr

/-! ## Store operations (`internal/store/memory.go`) -/

/-- `NewMemoryStore`: empty messages, empty knowledge. -/
def newMemoryStore : Store := ⟨[], []⟩

/-- `(*MemoryStore).All`: returns a copy of the messages slice. -/
def allMessages (s : Store) : List Message := s.messages

/-- `(*MemoryStore).Append`: appends one message at the end. -/
def appendMsg (s : Store) (m : Message) : Store :=
  { s with messages := s.messages ++ [m] }

/-- `(*MemoryStore).Reset`: truncates the messages slice to length 0. -/
def resetStore (s : Store) : Store := { s with messages := [] }

/-- `store.SeedAssistantHello`: appends an assistant message with the
given text. -/
def seedAssistantHello (s : Store) (text : List Nat) (now : Nat) : Store :=
  appendMsg s ⟨Role.assistant, text, now⟩

/-- The `nameToIdx` map built at the start of `AddFiles`
(`for i, f := range s.knowledge { nameToIdx[f.Name] = i }`), modelled as
an association list where the head is the most recent insertion, so a
later index for the same name shadows an earlier one, as in a Go map. -/
def buildIdxAux (i : Nat) (m : List (List Nat × Nat)) : List KnowledgeFile → List (List Nat × Nat)
  | [] => m
  | f :: fs => buildIdxAux (i + 1) ((f.name, i) :: m) fs

def buildIdx (kn : List KnowledgeFile) : List (List Nat × Nat) :=
  buildIdxAux 0 [] kn

/-- The upsert loop of `AddFiles`: replace at the mapped index when the
name is known, otherwise append and record the new index. -/
def addFilesAux (m : List (List Nat × Nat)) (kn : List KnowledgeFile) :
    List KnowledgeFile → List KnowledgeFile
  | [] => kn
  | f :: fs =>
    match m.lookup f.name with
    | some i => addFilesAux m (kn.set i f) fs
    | none => addFilesAux ((f.name, kn.length) :: m) (kn ++ [f]) fs

/-- `(*MemoryStore).AddFiles` on the knowledge slice. -/
def addFilesGo (kn files : List KnowledgeFile) : List KnowledgeFile :=
  addFilesAux (buildIdx kn) kn files

/-- `(*MemoryStore).AddFiles`: upserts the batch and returns the new
total file count. -/
def addFiles (s : Store) (files : List KnowledgeFile) : Store × Nat :=
  let kn := addFilesGo s.knowledge files
  ({ s with knowledge := kn }, kn.length)

/-- `(*MemoryStore).ListFiles`: returns a copy of the knowledge slice. -/
def listFiles (s : Store) : List KnowledgeFile := s.knowledge

/-- `(*MemoryStore).RemoveFile`: keeps every file whose name differs and
returns the remaining count. -/
def removeFile (s : Store) (name : List Nat) : Store × Nat :=
  let kn := s.knowledge.filter (fun f => f.name ≠ name)
  ({ s with knowledge := kn }, kn.length)

/-- `(*MemoryStore).ClearFiles`: truncates the knowledge slice. -/
def clearFiles (s : Store) : Store := { s with knowledge := [] }

/-! ## CSV context builder (`buildFilesContext`, main.go) -/

/-- Per-file excerpt cap: `maxPerFileBytes = 20 * 1024`. -/
def maxPerFileBytes : Nat := 20 * 1024

/-- Aggregate excerpt budget: `maxTotalBytes = 80 * 1024`. -/
def maxTotalBytes : Nat := 80 * 1024

/-- ASCII decimal digits of a natural number, most significant first. -/
def natDigits (n : Nat) : List Nat :=
  if h : n < 10 then [48 + n] else natDigits (n / 10) ++ [48 + n % 10]
termination_by n
decreasing_by
  exact Nat.div_lt_self (by omega) (by omega)

/-- ASCII decimal rendering of a Go `int` (`fmt` `%d` verb). -/
def intDec (i : Int) : List Nat :=
  if i < 0 then 45 :: natDigits (-i).toNat else natDigits i.toNat

/-- The per-file header line `fmt.Fprintf(&b, "- %s (%d bytes)\n", ...)`. -/
def fileHeader (f : KnowledgeFile) : List Nat :=
  strBytes "- " ++ f.name ++ strBytes " (" ++ intDec f.size ++ strBytes " bytes)\n"

/-- Loop state of `buildFilesContext`: the builder contents, the content
excerpts written so far, and the running excerpt byte total. -/
structure CtxAcc where
  buf : List Nat
  excerpts : List (List Nat)
  total : Nat
deriving Repr

/-- The per-file cap of `buildFilesContext`:
`if len(txt) > maxPerFileBytes { txt = txt[:maxPerFileBytes] }`. -/
def capPerFile (txt : List Nat) : List Nat :=
  if txt.length > maxPerFileBytes then txt.take maxPerFileBytes else txt

/-- The aggregate cap of `buildFilesContext`:
`if total+len(txt) > maxTotalBytes { txt = txt[:maxTotalBytes-total] }`. -/
def capTotal (total : Nat) (txt : List Nat) : List Nat :=
  if total + txt.length > maxTotalBytes then txt.take (maxTotalBytes - total) else txt

/-- The truncation pipeline applied to one file's text given the running
total: per-file cap, then aggregate cap, then the UTF-8 repair loop. -/
def truncateText (total : Nat) (txt0 : List Nat) : List Nat :=
  utf8Backoff (capTotal total (capPerFile txt0))

/-- One iteration of the `for _, f := range files` loop of
`buildFilesContext`: the header is always written; the content excerpt
only while budget remains and when non-empty after truncation. -/
def ctxStep (acc : CtxAcc) (f : KnowledgeFile) : CtxAcc :=
  let buf := acc.buf ++ fileHeader f
  if acc.total ≥ maxTotalBytes then { acc with buf := buf }
  else
    let txt := truncateText acc.total f.text
    if 0 < txt.length then
      { buf := buf ++ strBytes "Contenido (parcial):\n\n" ++ txt ++ strBytes "\n\n",
        excerpts := acc.excerpts ++ [txt],
        total := acc.total + txt.length }
    else { acc with buf := buf }

/-- The two preamble lines written before the loop. -/
def ctxPreamble : List Nat :=
  strBytes "[Contexto de archivos CSV cargados]\n" ++
  strBytes "Puedes usar estos datos para responder si el usuario los menciona o pide análisis.\n"

/-- The full loop of `buildFilesContext`, starting from the preamble and
a zero total. -/
def ctxFold (files : List KnowledgeFile) : CtxAcc :=
  files.foldl ctxStep ⟨ctxPreamble, [], 0⟩

/-- `buildFilesContext` (main.go): empty string when no files are
loaded, otherwise preamble plus per-file headers and truncated
excerpts. -/
def buildFilesContext (files : List KnowledgeFile) : List Nat :=
  if files.length = 0 then [] else (ctxFold files).buf

/-- The content excerpts emitted by `buildFilesContext`. -/
def contextExcerpts (files : List KnowledgeFile) : List (List Nat) :=
  (ctxFold files).excerpts

/-- The aggregate excerpt byte count tracked by `buildFilesContext`. -/
def contextTotal (files : List KnowledgeFile) : Nat :=
  (ctxFold files).total

/-! ## Analyst prompt machinery (main.go) -/

/-- Byte-list version of Go's prefix test, used by substring search. -/
def isPreB : List Nat → List Nat → Bool
  | [], _ => true
  | _ :: _, [] => false
  | a :: pa, b :: sb => a == b && isPreB pa sb

/-- Go's `strings.Contains(s, pat)`: does `pat` occur contiguously in `s`? -/
def containsB : List Nat → List Nat → Bool
  | [], pat => isPreB pat []
  | c :: rest, pat => isPreB pat (c :: rest) || containsB rest pat

/-- Go's `strings.Replace(s, pat, rep, 1)`: replace the first (leftmost)
occurrence of `pat` by `rep`; identity when `pat` does not occur. -/
def replaceFirst : List Nat → List Nat → List Nat → List Nat
  | [], pat, rep => if isPreB pat [] then rep else []
  | c :: rest, pat, rep =>
    if isPreB pat (c :: rest) then rep ++ (c :: rest).drop pat.length
    else c :: replaceFirst rest pat rep

/-- The Unicode simple lowercase mappings applied by Go's
`unicode.ToLower`, compressed as ranges `(lo, hi, step, delta)`: a code
point `c` with `lo ≤ c ≤ hi` and `(c - lo) % step = 0` lowercases to
`c + delta`; every other code point maps to itself. -/
def lowerRanges : List (Nat × Nat × Nat × Int) :=
  [(0x41, 0x5A, 1, 32), (0xC0, 0xD6, 1, 32), (0xD8, 0xDE, 1, 32),
   (0x100, 0x12E, 2, 1), (0x130, 0x130, 1, -199), (0x132, 0x136, 2, 1),
   (0x139, 0x147, 2, 1), (0x14A, 0x176, 2, 1), (0x178, 0x178, 1, -121),
   (0x179, 0x17D, 2, 1), (0x181, 0x181, 1, 210), (0x182, 0x184, 2, 1),
   (0x186, 0x186, 1, 206), (0x187, 0x187, 1, 1), (0x189, 0x18A, 1, 205),
   (0x18B, 0x18B, 1, 1), (0x18E, 0x18E, 1, 79), (0x18F, 0x18F, 1, 202),
   (0x190, 0x190, 1, 203), (0x191, 0x191, 1, 1), (0x193, 0x193, 1, 205),
   (0x194, 0x194, 1, 207), (0x196, 0x196, 1, 211), (0x197, 0x197, 1, 209),
   (0x198, 0x198, 1, 1), (0x19C, 0x19C, 1, 211), (0x19D, 0x19D, 1, 213),
   (0x19F, 0x19F, 1, 214), (0x1A0, 0x1A4, 2, 1), (0x1A6, 0x1A6, 1, 218),
   (0x1A7, 0x1A7, 1, 1), (0x1A9, 0x1A9, 1, 218), (0x1AC, 0x1AC, 1, 1),
   (0x1AE, 0x1AE, 1, 218), (0x1AF, 0x1AF, 1, 1), (0x1B1, 0x1B2, 1, 217),
   (0x1B3, 0x1B5, 2, 1), (0x1B7, 0x1B7, 1, 219), (0x1B8, 0x1B8, 1, 1),
   (0x1BC, 0x1BC, 1, 1), (0x1C4, 0x1C4, 1, 2), (0x1C5, 0x1C5, 1, 1),
   (0x1C7, 0x1C7, 1, 2), (0x1C8, 0x1C8, 1, 1), (0x1CA, 0x1CA, 1, 2),
   (0x1CB, 0x1DB, 2, 1), (0x1DE, 0x1EE, 2, 1), (0x1F1, 0x1F1, 1, 2),
   (0x1F2, 0x1F4, 2, 1), (0x1F6, 0x1F6, 1, -97), (0x1F7, 0x1F7, 1, -56),
   (0x1F8, 0x21E, 2, 1), (0x220, 0x220, 1, -130), (0x222, 0x232, 2, 1),
   (0x23A, 0x23A, 1, 10795), (0x23B, 0x23B, 1, 1), (0x23D, 0x23D, 1, -163),
   (0x23E, 0x23E, 1, 10792), (0x241, 0x241, 1, 1), (0x243, 0x243, 1, -195),
   (0x244, 0x244, 1, 69), (0x245, 0x245, 1, 71), (0x246, 0x24E, 2, 1),
   (0x370, 0x372, 2, 1), (0x376, 0x376, 1, 1), (0x37F, 0x37F, 1, 116),
   (0x386, 0x386, 1, 38), (0x388, 0x38A, 1, 37), (0x38C, 0x38C, 1, 64),
   (0x38E, 0x38F, 1, 63), (0x391, 0x3A1, 1, 32), (0x3A3, 0x3AB, 1, 32),
   (0x3CF, 0x3CF, 1, 8), (0x3D8, 0x3EE, 2, 1), (0x3F4, 0x3F4, 1, -60),
   (0x3F7, 0x3F7, 1, 1), (0x3F9, 0x3F9, 1, -7), (0x3FA, 0x3FA, 1, 1),
   (0x3FD, 0x3FF, 1, -130), (0x400, 0x40F, 1, 80), (0x410, 0x42F, 1, 32),
   (0x460, 0x480, 2, 1), (0x48A, 0x4BE, 2, 1), (0x4C0, 0x4C0, 1, 15),
   (0x4C1, 0x4CD, 2, 1), (0x4D0, 0x52E, 2, 1), (0x531, 0x556, 1, 48),
   (0x10A0, 0x10C5, 1, 7264), (0x10C7, 0x10C7, 1, 7264), (0x10CD, 0x10CD, 1, 7264),
   (0x13A0, 0x13EF, 1, 38864), (0x13F0, 0x13F5, 1, 8), (0x1C90, 0x1CBA, 1, -3008),
   (0x1CBD, 0x1CBF, 1, -3008), (0x1E00, 0x1E94, 2, 1), (0x1E9E, 0x1E9E, 1, -7615),
   (0x1EA0, 0x1EFE, 2, 1), (0x1F08, 0x1F0F, 1, -8), (0x1F18, 0x1F1D, 1, -8),
   (0x1F28, 0x1F2F, 1, -8), (0x1F38, 0x1F3F, 1, -8), (0x1F48, 0x1F4D, 1, -8),
   (0x1F59, 0x1F5F, 2, -8), (0x1F68, 0x1F6F, 1, -8), (0x1F88, 0x1F8F, 1, -8),
   (0x1F98, 0x1F9F, 1, -8), (0x1FA8, 0x1FAF, 1, -8), (0x1FB8, 0x1FB9, 1, -8),
   (0x1FBA, 0x1FBB, 1, -74), (0x1FBC, 0x1FBC, 1, -9), (0x1FC8, 0x1FCB, 1, -86),
   (0x1FCC, 0x1FCC, 1, -9), (0x1FD8, 0x1FD9, 1, -8), (0x1FDA, 0x1FDB, 1, -100),
   (0x1FE8, 0x1FE9, 1, -8), (0x1FEA, 0x1FEB, 1, -112), (0x1FEC, 0x1FEC, 1, -7),
   (0x1FF8, 0x1FF9, 1, -128), (0x1FFA, 0x1FFB, 1, -126), (0x1FFC, 0x1FFC, 1, -9),
   (0x2126, 0x2126, 1, -7517), (0x212A, 0x212A, 1, -8383), (0x212B, 0x212B, 1, -8262),
   (0x2132, 0x2132, 1, 28), (0x2160, 0x216F, 1, 16), (0x2183, 0x2183, 1, 1),
   (0x24B6, 0x24CF, 1, 26), (0x2C00, 0x2C2F, 1, 48), (0x2C60, 0x2C60, 1, 1),
   (0x2C62, 0x2C62, 1, -10743), (0x2C63, 0x2C63, 1, -3814), (0x2C64, 0x2C64, 1, -10727),
   (0x2C67, 0x2C6B, 2, 1), (0x2C6D, 0x2C6D, 1, -10780), (0x2C6E, 0x2C6E, 1, -10749),
   (0x2C6F, 0x2C6F, 1, -10783), (0x2C70, 0x2C70, 1, -10782), (0x2C72, 0x2C72, 1, 1),
   (0x2C75, 0x2C75, 1, 1), (0x2C7E, 0x2C7F, 1, -10815), (0x2C80, 0x2CE2, 2, 1),
   (0x2CEB, 0x2CED, 2, 1), (0x2CF2, 0x2CF2, 1, 1), (0xA640, 0xA66C, 2, 1),
   (0xA680, 0xA69A, 2, 1), (0xA722, 0xA72E, 2, 1), (0xA732, 0xA76E, 2, 1),
   (0xA779, 0xA77B, 2, 1), (0xA77D, 0xA77D, 1, -35332), (0xA77E, 0xA786, 2, 1),
   (0xA78B, 0xA78B, 1, 1), (0xA78D, 0xA78D, 1, -42280), (0xA790, 0xA792, 2, 1),
   (0xA796, 0xA7A8, 2, 1), (0xA7AA, 0xA7AA, 1, -42308), (0xA7AB, 0xA7AB, 1, -42319),
   (0xA7AC, 0xA7AC, 1, -42315), (0xA7AD, 0xA7AD, 1, -42305), (0xA7AE, 0xA7AE, 1, -42308),
   (0xA7B0, 0xA7B0, 1, -42258), (0xA7B1, 0xA7B1, 1, -42282), (0xA7B2, 0xA7B2, 1, -42261),
   (0xA7B3, 0xA7B3, 1, 928), (0xA7B4, 0xA7C2, 2, 1), (0xA7C4, 0xA7C4, 1, -48),
   (0xA7C5, 0xA7C5, 1, -42307), (0xA7C6, 0xA7C6, 1, -35384), (0xA7C7, 0xA7C9, 2, 1),
   (0xA7D0, 0xA7D0, 1, 1), (0xA7D6, 0xA7D8, 2, 1), (0xA7F5, 0xA7F5, 1, 1),
   (0xFF21, 0xFF3A, 1, 32), (0x10400, 0x10427, 1, 40), (0x104B0, 0x104D3, 1, 40),
   (0x10570, 0x1057A, 1, 39), (0x1057C, 0x1058A, 1, 39), (0x1058C, 0x10592, 1, 39),
   (0x10594, 0x10595, 1, 39), (0x10C80, 0x10CB2, 1, 64), (0x118A0, 0x118BF, 1, 32),
   (0x16E40, 0x16E5F, 1, 32), (0x1E900, 0x1E921, 1, 34)]

/-- Scan of the lowercase ranges; code points in no range are
unchanged. -/
def lowerScan : List (Nat × Nat × Nat × Int) → Nat → Nat
  | [], c => c
  | (lo, hi, step, d) :: rest, c =>
    if lo ≤ c ∧ c ≤ hi ∧ (c - lo) % step = 0 then ((c : Int) + d).toNat
    else lowerScan rest c

/-- `unicode.ToLower` on a single code point. -/
def goUnicodeToLower (c : Nat) : Nat := lowerScan lowerRanges c

/-- UTF-8 decoding of a byte string into code points, with the
semantics of Go's `utf8.DecodeRuneInString` iterated over the string:
a malformed, overlong, surrogate, out-of-range or truncated sequence
yields `U+FFFD` and consumes exactly one byte.  The fuel argument, set
to the byte count, only drives the structural recursion: every step
consumes at least one byte. -/
def utf8DecodeAux : Nat → List Nat → List Nat
  | 0, _ => []
  | _, [] => []
  | fuel + 1, b :: rest =>
    if b ≤ 0x7F then b :: utf8DecodeAux fuel rest
    else if 0xC2 ≤ b ∧ b ≤ 0xDF then
      match rest with
      | c1 :: r =>
        if isCont c1 then ((b - 0xC0) * 64 + (c1 - 0x80)) :: utf8DecodeAux fuel r
        else 0xFFFD :: utf8DecodeAux fuel (c1 :: r)
      | [] => [0xFFFD]
    else if 0xE0 ≤ b ∧ b ≤ 0xEF then
      match rest with
      | c1 :: c2 :: r =>
        if ((if b = 0xE0 then 0xA0 ≤ c1 ∧ c1 ≤ 0xBF
             else if b = 0xED then 0x80 ≤ c1 ∧ c1 ≤ 0x9F
             else isCont c1 = true) ∧ isCont c2 = true : Prop) then
          ((b - 0xE0) * 4096 + (c1 - 0x80) * 64 + (c2 - 0x80)) :: utf8DecodeAux fuel r
        else 0xFFFD :: utf8DecodeAux fuel (c1 :: c2 :: r)
      | [c1] => 0xFFFD :: utf8DecodeAux fuel [c1]
      | [] => [0xFFFD]
    else if 0xF0 ≤ b ∧ b ≤ 0xF4 then
      match rest with
      | c1 :: c2 :: c3 :: r =>
        if ((if b = 0xF0 then 0x90 ≤ c1 ∧ c1 ≤ 0xBF
             else if b = 0xF4 then 0x80 ≤ c1 ∧ c1 ≤ 0x8F
             else isCont c1 = true) ∧ isCont c2 = true ∧ isCont c3 = true : Prop) then
          ((b - 0xF0) * 0x40000 + (c1 - 0x80) * 4096 + (c2 - 0x80) * 64 + (c3 - 0x80)) ::
            utf8DecodeAux fuel r
        else 0xFFFD :: utf8DecodeAux fuel (c1 :: c2 :: c3 :: r)
      | r => 0xFFFD :: utf8DecodeAux fuel r
    else 0xFFFD :: utf8DecodeAux fuel rest

def utf8Decode (bs : List Nat) : List Nat := utf8DecodeAux bs.length bs

/-- Go's `strings.ToLower`: decode the UTF-8 bytes (invalid input
becoming `U+FFFD`), lowercase each code point by the Unicode simple
case mapping, and re-encode. -/
def goToLower (bs : List Nat) : List Nat :=
  (utf8Decode bs).flatMap (fun r => encodeChar (goUnicodeToLower r))

/-- The fixed keyword list of `isAnalystQuery`, in source order. -/
def keywords : List (List Nat) :=
  [strBytes "analiza", strBytes "análisis", strBytes "analysis", strBytes "analizar",
   strBytes "insights", strBytes "resumen", strBytes "summary",
   strBytes "puntos de dolor", strBytes "pain points", strBytes "temas", strBytes "topics",
   strBytes "top 3", strBytes "top3", strBytes "%", strBytes "porcentaje",
   strBytes "frecuencia", strBytes "tendencias", strBytes "trends", strBytes "verbatim",
   strBytes "citas", strBytes "quotes", strBytes "encuesta", strBytes "surveys",
   strBytes "feedback", strBytes "quejas", strBytes "needs", strBytes "necesidades",
   strBytes "social", strBytes "menciones", strBytes "cluster", strBytes "tema",
   strBytes "csv", strBytes "datos", strBytes "data"]

/-- `isAnalystQuery` (main.go): lower-case the query and test each fixed
keyword as a substring; any match classifies the query as analytical. -/
def isAnalystQuery (q : List Nat) : Bool :=
  let ql := goToLower q
  keywords.any (fun kw => containsB ql kw)

/-- Text of the `analystTemplate` raw-string constant of main.go that
precedes the first placeholder. -/
def tplPre : String :=
  "You are an expert market researcher and data analyst for a major financial institution. Your task is to analyze raw customer feedback and summarize the key insights. Below is a collection of customer feedback data from various sources including social media, surveys, and chat logs.\nCustomer Data: "

/-- First placeholder of the template (raw customer data).  Literal
braces are written `\x7b`/`\x7d`. -/
def ph1 : String := "\x7bInsert your raw customer data here\x7d"

/-- Template text between the two placeholders. -/
def tplMid : String := "\nUser Query: "

/-- Second placeholder of the template (the user's question);
apostrophes are written `\x27`. -/
def ph2 : String :=
  "\x7bInsert the Nubanker\x27s question here, e.g., \"what are credit card customers\x27 main pain points from the last 3 months?\"\x7d"

/-- Template text from the second placeholder to the `Format:` line. -/
def tplInstr : String :=
  "\nInstructions:\nAnalyze the provided \"Customer Data\" to answer the \"User Query.\"\nSynthesize the key information into a concise summary.\nIdentify the main pain points, frustrations, and underlying customer needs mentioned in the data.\nTranslate the pain points into specific, actionable feedback that can be used by product and operations teams\nList the top 3 most frequently mentioned topics or themes related to the query. For each topic, calculate the approximate percentage of mentions it accounts for.\nFor each of the top 3 topics, provide 1-2 direct quotes (verbatim) from the data to serve as concrete examples.\n\nMode rules:\n- Use the required output format ONLY if the User Query is about analyzing data/feedback (e.g., asks for insights, summary, pain points, frequencies/percentages, themes/topics, verbatim quotes, surveys, social listening, or similar analysis tasks).\n- If the User Query is NOT about data analysis (e.g., greetings, casual questions, UI/help questions, deployment, configuration), DO NOT use the formatted sections. Respond briefly and directly in neutral Spanish without any of the formatted headers.\n- If there is no relevant Customer Data for the User Query, say so concisely and still follow the previous rule about whether to use the formatted sections.\n\nOutput language: Respond strictly in neutral Spanish.\n\nWhen the analysis mode applies, format the final response using the exact structure below. Do not include any extra text, introductions, or conclusions outside of this format.\nFormat:\n"

/-- The five fixed section markers of the analyst output format. -/
def mkSummary : String := "--- Summary"

def mkPain : String := "--- Main Pain Points & Needs"

def mkAction : String := "--- Actionable Feedback"

def mkTopics : String := "--- Top 3 Topics and (%) of Mentions"

def mkVerbatim : String := "--- Examples of Verbatim for those main topics"

def fmtS1 : String := " [Provide a concise, high-level summary here.]\n"

def fmtS2 : String := " [List the main pain points and needs using bullet points.]\n"

def fmtS3 : String := " [List actionable feedback using bullet points.]\n"

def fmtS4 : String := " [List the topics with their percentage here, e.g., 1. Topic One (X%) 2. Topic Two (Y%) 3. Topic Three (Z%) ]\n"

def fmtS5 : String := " [Provide verbatim examples here, clearly separating them by topic.]"

/-- The `Format:` section of the template, spelled around its five
section markers. -/
def tplFormat : String :=
  mkSummary ++ fmtS1 ++ mkPain ++ fmtS2 ++ mkAction ++ fmtS3 ++
  mkTopics ++ fmtS4 ++ mkVerbatim ++ fmtS5

/-- Template text after the second placeholder. -/
def tplTail : String := tplInstr ++ tplFormat

/-- The `analystTemplate` raw-string constant of main.go, written as the
concatenation of its fragments around the two placeholders; the
concatenation equals the source literal character for character. -/
def analystTemplate : String := tplPre ++ ph1 ++ tplMid ++ ph2 ++ tplTail

/-- `buildAnalystPrompt` (main.go): substitute the CSV context, then the
user query, each into the first occurrence of its placeholder. -/
def buildAnalystPrompt (userQuery csvContext : List Nat) : List Nat :=
  replaceFirst (replaceFirst (strBytes analystTemplate) (strBytes ph1) csvContext)
    (strBytes ph2) userQuery

/-- The `useAnalyst` feature flag of main.go, set to `true`. -/
def useAnalyst : Bool := true

/-- The `filesMax = 50` upload cap of main.go. -/
def filesMax : Nat := 50

/-- The prompt computed by the `POST /api/messages` handler: the analyst
template filled with the CSV context when the heuristic fires, the raw
query otherwise. -/
def promptFor (files : List KnowledgeFile) (content : List Nat) : List Nat :=
  if useAnalyst && isAnalystQuery content then
    buildAnalystPrompt content (buildFilesContext files)
  else content

/-- The byte strings of the five fixed section markers. -/
def sectionMarkers : List (List Nat) :=
  [strBytes mkSummary, strBytes mkPain, strBytes mkAction, strBytes mkTopics,
   strBytes mkVerbatim]

/-! ## Provider (`internal/provider`) -/

/-- The observable outcome of the HTTP round trip inside
`OpenAIProvider.Reply`, after JSON decoding: a transport-level error, a
body that fails to decode, or a response with its status, optional
decoded `error.message`, status text and decoded `output` blocks (each a
list of `content` text entries). -/
inductive Transport where
  | netErr (msg : List Nat)
  | badBody (status : Nat) (decodeErr : List Nat)
  | resp (status : Nat) (errMsg : List Nat) (statusText : List Nat)
      (output : List (List (List Nat)))
deriving DecidableEq, Repr

/-- The error/result classification of `OpenAIProvider.Reply` (part of
`internal/provider`): transport errors propagate; a status `>= 400`
yields the decoded `error.message` when non-empty, otherwise
`"openai error: " + resp.Status`; a decode failure propagates; an
output with a first text block yields that text; otherwise the fixed
`"respuesta vacía de OpenAI"` error. -/
def openAIReplyOutcome : Transport → Except (List Nat) (List Nat)
  | Transport.netErr m => Except.error m
  | Transport.badBody _ e => Except.error e
  | Transport.resp status errMsg statusText output =>
    if status ≥ 400 then
      if errMsg ≠ [] then Except.error errMsg
      else Except.error (strBytes "openai error: " ++ statusText)
    else
      match output with
      | (t :: _) :: _ => Except.ok t
      | _ => Except.error (strBytes "respuesta vacía de OpenAI")

/-- `MockProvider.Reply`: a deterministic echo, never failing. -/
def mockReply (userInput : List Nat) : Except (List Nat) (List Nat) :=
  Except.ok (strBytes "Entendido. (mock) Me pediste: \"" ++ userInput ++ strBytes "\"")

/-! ## HTTP handlers (main.go) -/

/-- Outcome of `POST /api/messages`: a 400 JSON error, the 502 provider
error, or a 200 with the appended assistant reply. -/
inductive MsgOutcome where
  | badRequest (msg : List Nat)
  | providerError (msg : List Nat)
  | ok (reply : Message)
deriving DecidableEq, Repr

/-- `POST /api/messages`.  The request body is `none` for invalid JSON
and `some content` otherwise (a missing field decodes as the empty
string); `replyFn` is the configured provider's `Reply`, taking the
history and final prompt; `now` is the clock value. -/
def postMessages (replyFn : List Message → List Nat → Except (List Nat) (List Nat))
    (now : Nat) (st : Store) (body : Option (List Nat)) : MsgOutcome × Store :=
  match body with
  | none => (MsgOutcome.badRequest (strBytes "content requerido"), st)
  | some content =>
    if content = [] then (MsgOutcome.badRequest (strBytes "content requerido"), st)
    else
      let st1 := appendMsg st ⟨Role.user, content, now⟩
      let prompt := promptFor st1.knowledge content
      match replyFn (allMessages st1) prompt with
      | Except.error e => (MsgOutcome.providerError e, st1)
      | Except.ok replyText =>
        let assistantMsg : Message := ⟨Role.assistant, replyText, now⟩
        (MsgOutcome.ok assistantMsg, appendMsg st1 assistantMsg)

/-- Outcome of `POST /api/files`: 400, 413, or 200 with
`{count, total}`. -/
inductive FilesOutcome where
  | badRequest (msg : List Nat)
  | tooLarge (msg : List Nat)
  | ok (count : Nat) (total : Nat)
deriving DecidableEq, Repr

/-- `POST /api/files`: reject invalid JSON (400), an empty list (400)
or a batch that would push the file count past `filesMax` (413);
otherwise upsert and answer with the batch size and new total. -/
def postFiles (st : Store) (body : Option (List KnowledgeFile)) : FilesOutcome × Store :=
  match body with
  | none => (FilesOutcome.badRequest (strBytes "JSON inválido o vacío"), st)
  | some files =>
    if files.length = 0 then (FilesOutcome.badRequest (strBytes "files requerido"), st)
    else if (listFiles st).length + files.length > filesMax then
      (FilesOutcome.tooLarge (strBytes "se excede el máximo de archivos"), st)
    else
      let r := addFiles st files
      (FilesOutcome.ok files.length r.2, r.1)

/-- The greeting seeded by `POST /api/reset`. -/
def resetGreeting : List Nat := strBytes "He reiniciado la conversación. ¿En qué te ayudo?"

/-- `POST /api/reset`: clear all messages and re-seed the greeting. -/
def apiReset (st : Store) (now : Nat) : Store :=
  seedAssistantHello (resetStore st) resetGreeting now

/-- `DELETE /api/files/:name`: remove by name, answer the remaining
total. -/
def deleteFileApi (st : Store) (name : List Nat) : Store × Nat :=
  removeFile st name

/-! ## Reachable knowledge states -/

/-- Knowledge-slice states reachable from the empty store through the
file operations of `MemoryStore`: `AddFiles` batches, `RemoveFile` and
`ClearFiles`. -/
inductive KnReachable : List KnowledgeFile → Prop where
  | init : KnReachable []
  | add (kn files) : KnReachable kn → KnReachable (addFilesGo kn files)
  | remove (kn n) : KnReachable kn → KnReachable (kn.filter (fun f => f.name ≠ n))
  | clear (kn) : KnReachable kn → KnReachable []

/-! ## Byte-string lemmas -/

theorem isPreB_iff (pat s : List Nat) : isPreB pat s = true ↔ pat <+: s := by
  induction pat generalizing s with
  | nil => simp [isPreB]
  | cons a pa ih =>
    cases s with
    | nil => simp [isPreB]
    | cons b sb =>
      simp only [isPreB, Bool.and_eq_true, beq_iff_eq, ih, List.cons_prefix_cons]

theorem containsB_iff (s pat : List Nat) : containsB s pat = true ↔ pat <:+: s := by
  induction s with
  | nil =>
    simp only [containsB, isPreB_iff]
    constructor
    · intro h
      exact h.isInfix
    · intro h
      have hnil : pat = [] := List.sublist_nil.mp h.sublist
      simp [hnil]
  | cons c rest ih =>
    simp only [containsB, Bool.or_eq_true, isPreB_iff, ih]
    constructor
    · rintro (h | h)
      · exact h.isInfix
      · exact h.trans (List.suffix_cons c rest).isInfix
    · rintro ⟨p, q, hpq⟩
      cases p with
      | nil =>
        left
        exact ⟨q, by simpa using hpq⟩
      | cons x xs =>
        right
        simp only [List.cons_append] at hpq
        injection hpq with hx hrest
        exact ⟨xs, q, hrest⟩

theorem replaceFirst_first_occurrence (s pat rep : List Nat) (h : containsB s pat = true) :
    ∃ p q, s = p ++ pat ++ q ∧ replaceFirst s pat rep = p ++ rep ++ q ∧
      ∀ p2 q2, s = p2 ++ pat ++ q2 → p.length ≤ p2.length := by
  induction s with
  | nil =>
    have hp : isPreB pat [] = true := by simpa [containsB] using h
    have hnil : pat = [] := List.prefix_nil.mp ((isPreB_iff pat []).mp hp)
    subst hnil
    refine ⟨[], [], by simp, ?_, by intro p2 q2 h2; simp⟩
    simp [replaceFirst, isPreB]
  | cons c rest ih =>
    by_cases hp : isPreB pat (c :: rest) = true
    · obtain ⟨t, ht⟩ := (isPreB_iff pat (c :: rest)).mp hp
      refine ⟨[], (c :: rest).drop pat.length, ?_, ?_, ?_⟩
      · simp only [List.nil_append]
        rw [← ht, List.drop_left]
      · simp [replaceFirst, hp]
      · intro p2 q2 _
        simp
    · have hc : containsB rest pat = true := by
        have h2 := h
        simp only [containsB, Bool.or_eq_true] at h2
        rcases h2 with h1 | h1
        · exact absurd h1 hp
        · exact h1
      obtain ⟨p, q, hs, hr, hmin⟩ := ih hc
      refine ⟨c :: p, q, by simp [hs], ?_, ?_⟩
      · rw [replaceFirst, if_neg (by simp [hp]), hr]
        simp
      · intro p2 q2 h2
        cases p2 with
        | nil =>
          exfalso
          exact hp ((isPreB_iff pat (c :: rest)).mpr ⟨q2, by simpa using h2.symm⟩)
        | cons x xs =>
          simp only [List.cons_append] at h2
          injection h2 with hx hrest
          have := hmin xs q2 hrest
          simp only [List.length_cons]
          omega

/-! ## Message-order, reset and remove claims -/

/-- Claim C7: for all sequences of appends to the store, listing
messages (`All`) returns exactly the previously listed messages
followed by the appended ones, in the exact order appended; no append
removes or reorders anything. -/
theorem messages_append_order (st : Store) (ms : List Message) :
    allMessages (ms.foldl appendMsg st) = allMessages st ++ ms := by
  induction ms generalizing st with
  | nil => simp [allMessages]
  | cons m ms ih =>
    simp only [List.foldl_cons, ih]
    simp [allMessages, appendMsg]

/-- Claim C8: for every prior conversation state, `POST /api/reset`
(clear messages, re-seed greeting) leaves the message list containing
exactly one message: the seeded assistant greeting. -/
theorem reset_leaves_one_greeting (st : Store) (now : Nat) :
    (apiReset st now).messages = [⟨Role.assistant, resetGreeting, now⟩] := rfl

/-- Claim C9: removing a name that is not among the stored knowledge
files leaves the store unchanged (same files, same order, messages
untouched) and returns the current file count. -/
theorem removeFile_absent_noop (st : Store) (name : List Nat)
    (h : name ∉ st.knowledge.map KnowledgeFile.name) :
    deleteFileApi st name = (st, st.knowledge.length) := by
  have hall : ∀ f ∈ st.knowledge, f.name ≠ name :=
    fun f hmem he => h (he ▸ List.mem_map_of_mem _ hmem)
  simp only [deleteFileApi, removeFile]
  rw [List.filter_eq_self.mpr (fun f hmem => by simp [hall f hmem])]

/-- Witness for C9 at a concrete store and missing name. -/
theorem removeFile_absent_noop_witness :
    deleteFileApi ⟨[], [⟨strBytes "a.csv", 7, strBytes "x,y"⟩]⟩ (strBytes "b.csv") =
      (⟨[], [⟨strBytes "a.csv", 7, strBytes "x,y"⟩]⟩, 1) :=
  removeFile_absent_noop ⟨[], [⟨strBytes "a.csv", 7, strBytes "x,y"⟩]⟩ (strBytes "b.csv")
    (by decide)

/-! ## Context truncation claims -/

theorem take_isPre (n : Nat) (l : List Nat) : l.take n <+: l :=
  ⟨l.drop n, l.take_append_drop n⟩

/-- The truncation pipeline never returns more than the per-file cap. -/
theorem truncateText_length_le (total : Nat) (txt : List Nat) :
    (truncateText total txt).length ≤ maxPerFileBytes := by
  have h1 : (capPerFile txt).length ≤ maxPerFileBytes := by
    unfold capPerFile
    by_cases h : txt.length > maxPerFileBytes
    · rw [if_pos h]
      simp
    · rw [if_neg h]
      omega
  have h2 : (capTotal total (capPerFile txt)).length ≤ (capPerFile txt).length := by
    unfold capTotal
    by_cases h : total + (capPerFile txt).length > maxTotalBytes
    · rw [if_pos h]
      simp
    · rw [if_neg h]
  exact le_trans (le_trans (utf8Backoff_length_le _) h2) h1

/-- While budget remains, the truncation pipeline fits the remaining
aggregate budget. -/
theorem truncateText_budget (total : Nat) (txt : List Nat) (h : total < maxTotalBytes) :
    total + (truncateText total txt).length ≤ maxTotalBytes := by
  unfold truncateText capTotal
  by_cases h2 : total + (capPerFile txt).length > maxTotalBytes
  · rw [if_pos h2]
    have h3 : ((capPerFile txt).take (maxTotalBytes - total)).length ≤ maxTotalBytes - total := by
      simp
    have h4 := utf8Backoff_length_le ((capPerFile txt).take (maxTotalBytes - total))
    omega
  · rw [if_neg h2]
    have h4 := utf8Backoff_length_le (capPerFile txt)
    omega

/-- The truncation pipeline only ever cuts from the right: the excerpt
is a prefix of the file's full text. -/
theorem truncateText_isPre (total : Nat) (txt : List Nat) :
    truncateText total txt <+: txt := by
  have p1 : capPerFile txt <+: txt := by
    unfold capPerFile
    by_cases h : txt.length > maxPerFileBytes
    · rw [if_pos h]
      exact take_isPre _ _
    · rw [if_neg h]
  have p2 : capTotal total (capPerFile txt) <+: capPerFile txt := by
    unfold capTotal
    by_cases h : total + (capPerFile txt).length > maxTotalBytes
    · rw [if_pos h]
      exact take_isPre _ _
    · rw [if_neg h]
  exact ((utf8Backoff_isPre _).trans p2).trans p1

/-- The truncated excerpt is always valid UTF-8. -/
theorem truncateText_valid (total : Nat) (txt : List Nat) :
    validUtf8 (truncateText total txt) = true :=
  validUtf8_utf8Backoff _

/-- Loop invariant of `buildFilesContext`: the aggregate total never
exceeds the budget, equals the sum of the excerpt lengths, and every
excerpt written during the loop is a valid-UTF-8 prefix of one of the
processed files, within the per-file cap. -/
theorem ctxFold_invariant (fs : List KnowledgeFile) (acc : CtxAcc)
    (h1 : acc.total ≤ maxTotalBytes)
    (h2 : acc.total = (acc.excerpts.map List.length).sum) :
    (fs.foldl ctxStep acc).total ≤ maxTotalBytes ∧
    (fs.foldl ctxStep acc).total = (((fs.foldl ctxStep acc).excerpts).map List.length).sum ∧
    ∀ e ∈ (fs.foldl ctxStep acc).excerpts, e ∈ acc.excerpts ∨
      (validUtf8 e = true ∧ e.length ≤ maxPerFileBytes ∧ ∃ f ∈ fs, e <+: f.text) := by
  induction fs generalizing acc with
  | nil =>
    refine ⟨h1, h2, ?_⟩
    intro e he
    exact Or.inl he
  | cons f fs ih =>
    simp only [List.foldl_cons]
    have hstep : (ctxStep acc f).total ≤ maxTotalBytes ∧
        (ctxStep acc f).total = (((ctxStep acc f).excerpts).map List.length).sum ∧
        ∀ e ∈ (ctxStep acc f).excerpts, e ∈ acc.excerpts ∨
          (validUtf8 e = true ∧ e.length ≤ maxPerFileBytes ∧ e <+: f.text) := by
      unfold ctxStep
      by_cases hb : acc.total ≥ maxTotalBytes
      · rw [if_pos hb]
        exact ⟨h1, h2, fun e he => Or.inl he⟩
      · rw [if_neg hb]
        by_cases hz : 0 < (truncateText acc.total f.text).length
        · rw [if_pos hz]
          refine ⟨?_, ?_, ?_⟩
          · exact truncateText_budget _ _ (by omega)
          · simp [h2]
          · intro e he
            simp only [List.mem_append, List.mem_singleton] at he
            rcases he with he | he
            · exact Or.inl he
            · subst he
              exact Or.inr ⟨truncateText_valid _ _, truncateText_length_le _ _,
                truncateText_isPre _ _⟩
        · rw [if_neg hz]
          exact ⟨h1, h2, fun e he => Or.inl he⟩
    obtain ⟨s1, s2, s3⟩ := hstep
    obtain ⟨r1, r2, r3⟩ := ih (ctxStep acc f) s1 s2
    refine ⟨r1, r2, ?_⟩
    intro e he
    rcases r3 e he with hmem | hgood
    · rcases s3 e hmem with hmem2 | hgood2
      · exact Or.inl hmem2
      · exact Or.inr ⟨hgood2.1, hgood2.2.1, f, List.mem_cons_self _ _, hgood2.2.2⟩
    · exact Or.inr ⟨hgood.1, hgood.2.1, by
        obtain ⟨g, hg, hpre⟩ := hgood.2.2
        exact ⟨g, List.mem_cons_of_mem _ hg, hpre⟩⟩

/-- Claim C1: for every set of knowledge files, the context built by
`buildFilesContext` keeps the aggregate excerpt byte count within the
80*1024-byte budget (the tracked total is exactly the sum of the
emitted excerpt lengths), and every emitted content excerpt is a
valid-UTF-8 prefix of its file's text (the cut only moves leftward)
within the 20*1024-byte per-file cap — so no excerpt ends in a
malformed multi-byte character. -/
theorem context_truncation_budget (files : List KnowledgeFile) :
    contextTotal files ≤ maxTotalBytes ∧
    contextTotal files = ((contextExcerpts files).map List.length).sum ∧
    (contextExcerpts files).all
      (fun e => validUtf8 e && decide (e.length ≤ maxPerFileBytes) &&
        files.any (fun f => isPreB e f.text)) = true := by
  obtain ⟨r1, r2, r3⟩ := ctxFold_invariant files ⟨ctxPreamble, [], 0⟩ (by simp [maxTotalBytes]) (by simp)
  refine ⟨r1, r2, ?_⟩
  rw [List.all_eq_true]
  intro e he
  rcases r3 e he with hmem | ⟨hv, hlen, f, hf, hpre⟩
  · simp at hmem
  · simp only [Bool.and_eq_true, decide_eq_true_eq, List.any_eq_true]
    exact ⟨⟨hv, hlen⟩, f, hf, (isPreB_iff _ _).mpr hpre⟩

/-! ## `AddFiles` index-map lemmas -/

/-- Index of the last occurrence of name `n` in the knowledge slice;
this is the index the Go `nameToIdx` map ends up holding. -/
def lastIdxOf (n : List Nat) : List KnowledgeFile → Option Nat
  | [] => none
  | f :: fs =>
    match lastIdxOf n fs with
    | some j => some (j + 1)
    | none => if f.name = n then some 0 else none

theorem lookup_buildIdxAux (kn : List KnowledgeFile) (i0 : Nat)
    (m0 : List (List Nat × Nat)) (n : List Nat) :
    (buildIdxAux i0 m0 kn).lookup n =
      match lastIdxOf n kn with
      | some j => some (i0 + j)
      | none => m0.lookup n := by
  induction kn generalizing i0 m0 with
  | nil => rfl
  | cons f fs ih =>
    simp only [buildIdxAux, lastIdxOf]
    rw [ih]
    cases h : lastIdxOf n fs with
    | some j =>
      simp only []
      congr 1
      omega
    | none =>
      simp only [List.lookup]
      by_cases he : f.name = n
      · subst he
        simp [if_pos rfl]
      · have hne : (n == f.name) = false := by
          simp [beq_eq_false_iff_ne]
          exact fun h2 => he h2.symm
        simp [he, hne]

theorem lastIdxOf_spec (n : List Nat) (kn : List KnowledgeFile) (i : Nat)
    (h : lastIdxOf n kn = some i) :
    i < kn.length ∧ ∃ f, kn[i]? = some f ∧ f.name = n := by
  induction kn generalizing i with
  | nil => simp [lastIdxOf] at h
  | cons g gs ih =>
    simp only [lastIdxOf] at h
    cases h2 : lastIdxOf n gs with
    | some j =>
      rw [h2] at h
      simp only [Option.some.injEq] at h
      subst h
      obtain ⟨hlt, f, hf, hname⟩ := ih j h2
      refine ⟨by simp; omega, f, ?_, hname⟩
      simpa using hf
    | none =>
      rw [h2] at h
      by_cases he : g.name = n
      · rw [if_pos he] at h
        simp only [Option.some.injEq] at h
        subst h
        exact ⟨by simp, g, by simp, he⟩
      · rw [if_neg he] at h
        exact absurd h (by simp)

theorem lastIdxOf_mem (n : List Nat) (kn : List KnowledgeFile) (i : Nat)
    (h : lastIdxOf n kn = some i) : n ∈ kn.map KnowledgeFile.name := by
  obtain ⟨_, f, hf, hname⟩ := lastIdxOf_spec n kn i h
  have hmem : f ∈ kn := by
    have := List.getElem?_eq_some.mp hf
    obtain ⟨hlt, hg⟩ := this
    exact hg ▸ List.getElem_mem hlt
  exact hname ▸ List.mem_map_of_mem _ hmem

theorem lastIdxOf_none_iff (n : List Nat) (kn : List KnowledgeFile) :
    lastIdxOf n kn = none ↔ n ∉ kn.map KnowledgeFile.name := by
  induction kn with
  | nil => simp [lastIdxOf]
  | cons f fs ih =>
    simp only [lastIdxOf, List.map_cons, List.mem_cons]
    cases h : lastIdxOf n fs with
    | some j =>
      have hmem : n ∈ fs.map KnowledgeFile.name := lastIdxOf_mem n fs j h
      simp only []
      constructor
      · intro h2
        exact absurd h2 (by simp)
      · intro h2
        exact absurd hmem (fun hm => h2 (Or.inr hm))
    | none =>
      have hnm : n ∉ fs.map KnowledgeFile.name := ih.mp h
      by_cases he : f.name = n
      · simp [he]
      · simp only [if_neg he]
        constructor
        · intro _ h2
          rcases h2 with h2 | h2
          · exact he h2.symm
          · exact hnm h2
        · intro _
          trivial

theorem map_name_set_same (kn : List KnowledgeFile) (i : Nat) (f g : KnowledgeFile)
    (hg : kn[i]? = some g) (hname : g.name = f.name) :
    (kn.set i f).map KnowledgeFile.name = kn.map KnowledgeFile.name := by
  induction kn generalizing i with
  | nil => simp at hg
  | cons x xs ih =>
    cases i with
    | zero =>
      simp only [List.getElem?_cons_zero, Option.some.injEq] at hg
      subst hg
      simp [List.set, hname]
    | succ j =>
      simp only [List.getElem?_cons_succ] at hg
      simp [List.set, ih j hg]

theorem buildIdxAux_names_eq (kn kn' : List KnowledgeFile) (i0 : Nat)
    (m0 : List (List Nat × Nat))
    (h : kn.map KnowledgeFile.name = kn'.map KnowledgeFile.name) :
    buildIdxAux i0 m0 kn = buildIdxAux i0 m0 kn' := by
  induction kn generalizing kn' i0 m0 with
  | nil =>
    have : kn' = [] := by
      cases kn' with
      | nil => rfl
      | cons y ys => simp at h
    subst this
    rfl
  | cons x xs ih =>
    cases kn' with
    | nil => simp at h
    | cons y ys =>
      simp only [List.map_cons, List.cons.injEq] at h
      simp only [buildIdxAux, h.1]
      exact ih ys (i0 + 1) _ h.2

theorem buildIdxAux_append (xs ys : List KnowledgeFile) (i0 : Nat)
    (m0 : List (List Nat × Nat)) :
    buildIdxAux i0 m0 (xs ++ ys) = buildIdxAux (i0 + xs.length) (buildIdxAux i0 m0 xs) ys := by
  induction xs generalizing i0 m0 with
  | nil => simp [buildIdxAux]
  | cons x xs ih =>
    simp only [List.cons_append, buildIdxAux, List.length_cons, List.append_eq]
    rw [ih]
    congr 1
    omega

theorem buildIdx_snoc (kn : List KnowledgeFile) (f : KnowledgeFile) :
    buildIdx (kn ++ [f]) = (f.name, kn.length) :: buildIdx kn := by
  unfold buildIdx
  rw [buildIdxAux_append]
  simp [buildIdxAux]

/-- `AddFiles` preserves uniqueness of names, for any batch. -/
theorem addFilesAux_nodup (fs : List KnowledgeFile) :
    ∀ kn, (kn.map KnowledgeFile.name).Nodup →
      ((addFilesAux (buildIdx kn) kn fs).map KnowledgeFile.name).Nodup := by
  induction fs with
  | nil =>
    intro kn h
    exact h
  | cons f fs ih =>
    intro kn h
    cases hl : (buildIdx kn).lookup f.name with
    | some i =>
      have hli : lastIdxOf f.name kn = some i := by
        have heq := lookup_buildIdxAux kn 0 [] f.name
        unfold buildIdx at hl
        rw [hl] at heq
        cases h2 : lastIdxOf f.name kn with
        | some j =>
          rw [h2] at heq
          simp only [Option.some.injEq] at heq
          simp [heq]
        | none =>
          rw [h2] at heq
          simp [List.lookup] at heq
      obtain ⟨hlt, g, hg, hgname⟩ := lastIdxOf_spec f.name kn i hli
      have hnames : (kn.set i f).map KnowledgeFile.name = kn.map KnowledgeFile.name :=
        map_name_set_same kn i f g hg hgname
      have hbi : buildIdx (kn.set i f) = buildIdx kn :=
        buildIdxAux_names_eq _ _ 0 [] hnames
      have hres := ih (kn.set i f) (by rw [hnames]; exact h)
      rw [hbi] at hres
      simp only [addFilesAux, hl]
      exact hres
    | none =>
      have hli : lastIdxOf f.name kn = none := by
        have heq := lookup_buildIdxAux kn 0 [] f.name
        unfold buildIdx at hl
        rw [hl] at heq
        cases h2 : lastIdxOf f.name kn with
        | some j =>
          rw [h2] at heq
          simp at heq
        | none => rfl
      have hnm : f.name ∉ kn.map KnowledgeFile.name := (lastIdxOf_none_iff _ _).mp hli
      have hnodup : ((kn ++ [f]).map KnowledgeFile.name).Nodup := by
        simp only [List.map_append, List.map_cons, List.map_nil]
        rw [List.nodup_append]
        exact ⟨h, List.nodup_singleton _, by simpa [List.disjoint_singleton] using hnm⟩
      have hres := ih (kn ++ [f]) hnodup
      rw [buildIdx_snoc] at hres
      simp only [addFilesAux, hl, List.length_append] at hres ⊢
      simpa using hres

/-- Claim C6: starting from the empty store, after every sequence of
`AddFiles` batches (including batches repeating a name), `RemoveFile`
and `ClearFiles`, knowledge-file names are unique: no two stored files
share a name. -/
theorem knowledge_names_unique (kn : List KnowledgeFile) (h : KnReachable kn) :
    (kn.map KnowledgeFile.name).Nodup := by
  induction h with
  | init => simp
  | add kn files _ ih => exact addFilesAux_nodup files kn ih
  | remove kn n _ ih =>
    exact List.Nodup.sublist (List.Sublist.map _ (List.filter_sublist kn)) ih
  | clear kn _ _ => simp

/-- Witness for C6: uniqueness at the state reached by one `AddFiles`
batch that repeats a name. -/
theorem knowledge_names_unique_witness :
    ((addFilesGo [] [⟨strBytes "a.csv", 7, strBytes "x,y"⟩,
        ⟨strBytes "b.csv", 2, strBytes "u"⟩,
        ⟨strBytes "a.csv", 9, strBytes "zz"⟩]).map KnowledgeFile.name).Nodup :=
  knowledge_names_unique _ (KnReachable.add [] _ KnReachable.init)

theorem map_replace_id (kn : List KnowledgeFile) (f : KnowledgeFile)
    (h : f.name ∉ kn.map KnowledgeFile.name) :
    kn.map (fun g => if g.name = f.name then f else g) = kn := by
  induction kn with
  | nil => rfl
  | cons x xs ih =>
    simp only [List.map_cons, List.mem_cons] at h ⊢
    have hx : x.name ≠ f.name := fun he => h (Or.inl he.symm)
    rw [if_neg hx, ih (fun hm => h (Or.inr hm))]

theorem set_lastIdx_eq_replace (kn : List KnowledgeFile) (f : KnowledgeFile) (i : Nat)
    (hnd : (kn.map KnowledgeFile.name).Nodup)
    (hi : lastIdxOf f.name kn = some i) :
    kn.set i f = kn.map (fun g => if g.name = f.name then f else g) := by
  induction kn generalizing i with
  | nil => simp [lastIdxOf] at hi
  | cons g gs ih =>
    simp only [List.map_cons, List.nodup_cons] at hnd
    simp only [lastIdxOf] at hi
    cases h2 : lastIdxOf f.name gs with
    | some j =>
      rw [h2] at hi
      simp only [Option.some.injEq] at hi
      subst hi
      have hmem : f.name ∈ gs.map KnowledgeFile.name := lastIdxOf_mem _ _ _ h2
      have hgne : g.name ≠ f.name := fun he => hnd.1 (he ▸ hmem)
      simp only [List.set, List.map_cons, if_neg hgne]
      rw [ih j hnd.2 h2]
    | none =>
      rw [h2] at hi
      by_cases he : g.name = f.name
      · rw [if_pos he] at hi
        simp only [Option.some.injEq] at hi
        subst hi
        have hnm : f.name ∉ gs.map KnowledgeFile.name := (lastIdxOf_none_iff _ _).mp h2
        simp only [List.set, List.map_cons, if_pos he]
        rw [map_replace_id gs f hnm]
      · rw [if_neg he] at hi
        exact absurd hi (by simp)

/-- Claim C5: uploading a single file whose name is already present
replaces that file's content and size in place — the result is exactly
the old list with the named entry swapped for the new file, preserving
positions — without changing the total count, which `AddFiles`
returns unchanged. -/
theorem addFiles_replace_in_place (kn : List KnowledgeFile) (f : KnowledgeFile)
    (hnd : (kn.map KnowledgeFile.name).Nodup)
    (hin : f.name ∈ kn.map KnowledgeFile.name) :
    addFilesGo kn [f] = kn.map (fun g => if g.name = f.name then f else g) ∧
    (addFilesGo kn [f]).length = kn.length := by
  have hne : lastIdxOf f.name kn ≠ none :=
    fun h => ((lastIdxOf_none_iff _ _).mp h) hin
  obtain ⟨i, hi⟩ := Option.ne_none_iff_exists.mp hne
  have hlook : (buildIdx kn).lookup f.name = some i := by
    have heq := lookup_buildIdxAux kn 0 [] f.name
    unfold buildIdx
    rw [← hi] at heq
    simpa using heq
  have hstep : addFilesGo kn [f] = kn.set i f := by
    unfold addFilesGo
    simp [addFilesAux, hlook]
  rw [hstep, set_lastIdx_eq_replace kn f i hnd hi.symm]
  exact ⟨rfl, by simp⟩

/-- Witness for C5 at a concrete two-file store. -/
theorem addFiles_replace_in_place_witness :
    addFilesGo [⟨strBytes "a.csv", 7, strBytes "x,y"⟩, ⟨strBytes "b.csv", 2, strBytes "u"⟩]
        [⟨strBytes "a.csv", 9, strBytes "zz"⟩] =
      ([⟨strBytes "a.csv", 7, strBytes "x,y"⟩, ⟨strBytes "b.csv", 2, strBytes "u"⟩].map
        (fun g => if g.name = (⟨strBytes "a.csv", 9, strBytes "zz"⟩ : KnowledgeFile).name then
          ⟨strBytes "a.csv", 9, strBytes "zz"⟩ else g)) ∧
    (addFilesGo [⟨strBytes "a.csv", 7, strBytes "x,y"⟩, ⟨strBytes "b.csv", 2, strBytes "u"⟩]
        [⟨strBytes "a.csv", 9, strBytes "zz"⟩]).length = 2 :=
  addFiles_replace_in_place
    [⟨strBytes "a.csv", 7, strBytes "x,y"⟩, ⟨strBytes "b.csv", 2, strBytes "u"⟩]
    ⟨strBytes "a.csv", 9, strBytes "zz"⟩ (by decide) (by decide)

/-! ## Handler error and upload claims -/

/-- Claim C3: every client input error — `POST /api/messages` with
invalid JSON or missing content; `POST /api/files` with invalid JSON,
an empty files list, or a batch pushing the count past the cap of 50 —
yields a 400 (413 for the cap) response with a message and performs no
mutation: the store is returned exactly as it was. -/
theorem client_errors_no_mutation
    (replyFn : List Message → List Nat → Except (List Nat) (List Nat))
    (now : Nat) (st : Store) :
    postMessages replyFn now st none =
      (MsgOutcome.badRequest (strBytes "content requerido"), st) ∧
    postMessages replyFn now st (some []) =
      (MsgOutcome.badRequest (strBytes "content requerido"), st) ∧
    postFiles st none = (FilesOutcome.badRequest (strBytes "JSON inválido o vacío"), st) ∧
    postFiles st (some []) = (FilesOutcome.badRequest (strBytes "files requerido"), st) ∧
    ∀ fs : List KnowledgeFile, fs.length ≠ 0 →
      st.knowledge.length + fs.length > filesMax →
      postFiles st (some fs) =
        (FilesOutcome.tooLarge (strBytes "se excede el máximo de archivos"), st) := by
  refine ⟨rfl, rfl, rfl, rfl, ?_⟩
  intro fs h1 h2
  simp only [postFiles, listFiles]
  rw [if_neg h1, if_pos h2]

/-- Witness for C3 at a full store: the 51st file is rejected with 413
and the store is untouched. -/
theorem client_errors_no_mutation_witness :
    postFiles ⟨[], List.replicate 50 ⟨strBytes "a.csv", 1, []⟩⟩
        (some [⟨strBytes "b.csv", 1, []⟩]) =
      (FilesOutcome.tooLarge (strBytes "se excede el máximo de archivos"),
        ⟨[], List.replicate 50 ⟨strBytes "a.csv", 1, []⟩⟩) :=
  (client_errors_no_mutation (fun _ _ => Except.error []) 0
    ⟨[], List.replicate 50 ⟨strBytes "a.csv", 1, []⟩⟩).2.2.2.2
    [⟨strBytes "b.csv", 1, []⟩] (by decide) (by decide)

/-- Claim C4: when the provider's `Reply` fails — network error, status
`>= 400`, or a response with no text block — `POST /api/messages`
surfaces the failure as a 502 with the error message, appends no
assistant message and makes no retry, while the user's message appended
before the provider call is retained in the conversation. -/
theorem provider_failure_surfaced (tf : List Message → List Nat → Transport)
    (now : Nat) (st : Store) (content e : List Nat)
    (hc : content ≠ [])
    (hf : openAIReplyOutcome (tf (allMessages (appendMsg st ⟨Role.user, content, now⟩))
        (promptFor st.knowledge content)) = Except.error e) :
    postMessages (fun h p => openAIReplyOutcome (tf h p)) now st (some content) =
      (MsgOutcome.providerError e, appendMsg st ⟨Role.user, content, now⟩) ∧
    (∀ m, openAIReplyOutcome (Transport.netErr m) = Except.error m) ∧
    (∀ status em stx out, 400 ≤ status →
      ∃ e2, openAIReplyOutcome (Transport.resp status em stx out) = Except.error e2) ∧
    (∀ status em stx, status < 400 →
      openAIReplyOutcome (Transport.resp status em stx []) =
        Except.error (strBytes "respuesta vacía de OpenAI")) := by
  refine ⟨?_, fun m => rfl, ?_, ?_⟩
  · simp only [postMessages, if_neg hc]
    have hk : (appendMsg st ⟨Role.user, content, now⟩).knowledge = st.knowledge := rfl
    rw [hk, hf]
  · intro status em stx out hs
    by_cases he : em = []
    · subst he
      refine ⟨strBytes "openai error: " ++ stx, ?_⟩
      simp [openAIReplyOutcome, hs]
    · refine ⟨em, ?_⟩
      simp [openAIReplyOutcome, hs, he]
  · intro status em stx hs
    simp [openAIReplyOutcome, Nat.not_le_of_lt hs]

/-- Witness for C4: a network error at a concrete store and query. -/
theorem provider_failure_surfaced_witness :
    postMessages
      (fun h p => openAIReplyOutcome
        ((fun _ _ => Transport.netErr (strBytes "network down")) h p))
      0 ⟨[], []⟩ (some (strBytes "hola")) =
      (MsgOutcome.providerError (strBytes "network down"),
        appendMsg ⟨[], []⟩ ⟨Role.user, strBytes "hola", 0⟩) :=
  (provider_failure_surfaced (fun _ _ => Transport.netErr (strBytes "network down"))
    0 ⟨[], []⟩ (strBytes "hola") (strBytes "network down") (by decide) rfl).1

/-- `AddFiles` grows the slice by at most one entry per incoming file. -/
theorem addFilesAux_length_le (fs : List KnowledgeFile) :
    ∀ m kn, (addFilesAux m kn fs).length ≤ kn.length + fs.length := by
  induction fs with
  | nil =>
    intro m kn
    simp [addFilesAux]
  | cons f fs ih =>
    intro m kn
    simp only [addFilesAux]
    cases (m.lookup f.name) with
    | some i =>
      have := ih m (kn.set i f)
      simp only [List.length_set] at this
      simp only [List.length_cons]
      omega
    | none =>
      have := ih ((f.name, kn.length) :: m) (kn ++ [f])
      simp only [List.length_append, List.length_cons, List.length_nil] at this ⊢
      omega

/-- Claim C10: an accepted `POST /api/files` answers with `count` equal
to the number of entries in the request batch (counting replacements
and repeated names once per occurrence) and `total` equal to the store
size after the upsert; the new size never grows by more than the batch
size, and a replacing batch leaves it unchanged, so `count` can exceed
the increase in `total`. -/
theorem upload_count_total (st : Store) (files : List KnowledgeFile)
    (h1 : files.length ≠ 0)
    (h2 : st.knowledge.length + files.length ≤ filesMax) :
    postFiles st (some files) =
      (FilesOutcome.ok files.length (addFilesGo st.knowledge files).length,
        { st with knowledge := addFilesGo st.knowledge files }) ∧
    (addFilesGo st.knowledge files).length ≤ st.knowledge.length + files.length ∧
    (addFilesGo [⟨strBytes "a.csv", 7, strBytes "x,y"⟩]
      [⟨strBytes "a.csv", 9, strBytes "1,2"⟩]).length = 1 := by
  refine ⟨?_, addFilesAux_length_le files _ _, by decide⟩
  simp only [postFiles, listFiles, addFiles]
  rw [if_neg h1, if_neg (by omega)]

/-- Witness for C10 at a concrete accepted upload. -/
theorem upload_count_total_witness :
    postFiles ⟨[], []⟩ (some [⟨strBytes "a.csv", 7, strBytes "x,y"⟩]) =
      (FilesOutcome.ok 1 (addFilesGo [] [⟨strBytes "a.csv", 7, strBytes "x,y"⟩]).length,
        ⟨[], addFilesGo [] [⟨strBytes "a.csv", 7, strBytes "x,y"⟩]⟩) :=
  (upload_count_total ⟨[], []⟩ [⟨strBytes "a.csv", 7, strBytes "x,y"⟩]
    (by decide) (by decide)).1

/-! ## Analyst prompt claims -/

theorem strBytes_append (s t : String) : strBytes (s ++ t) = strBytes s ++ strBytes t := by
  unfold strBytes
  have h : (s ++ t).data = s.data ++ t.data := rfl
  rw [h, List.flatMap_append]

theorem isInfix_app_left (m A B : List Nat) (h : m <:+: A) : m <:+: A ++ B :=
  h.trans ⟨[], B, by simp⟩

theorem isInfix_app_right (m A B : List Nat) (h : m <:+: B) : m <:+: A ++ B :=
  h.trans ⟨A, [], by simp⟩

theorem isInfix_self (m : List Nat) : m <:+: m :=
  ⟨[], [], by simp⟩

theorem drop_sub_drop (l : List Nat) (a b : Nat) (h : a ≤ b) :
    l.drop b = (l.drop a).drop (b - a) := by
  rw [List.drop_drop]
  congr 1
  omega

/-- After replacing the first occurrence of `pat` in a string of the
shape `p2 ++ pat ++ q2`, the final segment `q2` survives as a suffix of
the part after the replacement. -/
theorem replaceFirst_tail_suffix (s pat rep p2 q2 : List Nat)
    (hsplit : s = p2 ++ pat ++ q2) :
    ∃ p q, replaceFirst s pat rep = p ++ rep ++ q ∧ q2 <:+ q := by
  have hcont : containsB s pat = true := (containsB_iff s pat).mpr ⟨p2, q2, hsplit.symm⟩
  obtain ⟨p, q, hs, hres, hmin⟩ := replaceFirst_first_occurrence s pat rep hcont
  refine ⟨p, q, hres, ?_⟩
  have hle : p.length ≤ p2.length := hmin p2 q2 hsplit
  have hq : q = s.drop (p.length + pat.length) := by
    rw [hs]
    have h2 : p.length + pat.length = (p ++ pat).length := (List.length_append _ _).symm
    rw [h2, List.drop_left]
  have hq2 : q2 = s.drop (p2.length + pat.length) := by
    rw [hsplit]
    have h2 : p2.length + pat.length = (p2 ++ pat).length := (List.length_append _ _).symm
    rw [h2, List.drop_left]
  rw [hq, hq2]
  have hdd : s.drop (p2.length + pat.length) =
      (s.drop (p.length + pat.length)).drop (p2.length - p.length) := by
    rw [List.drop_drop]
    congr 1
    omega
  rw [hdd]
  exact List.drop_suffix _ _

/-- Every fixed section marker occurs in the template text after the
second placeholder. -/
theorem marker_mem_tail (m : List Nat) (hm : m ∈ sectionMarkers) :
    m <:+: strBytes tplTail := by
  have h5 : strBytes tplTail =
      strBytes tplInstr ++ (strBytes mkSummary ++ (strBytes fmtS1 ++ (strBytes mkPain ++
        (strBytes fmtS2 ++ (strBytes mkAction ++ (strBytes fmtS3 ++ (strBytes mkTopics ++
        (strBytes fmtS4 ++ (strBytes mkVerbatim ++ strBytes fmtS5))))))))) := by
    simp only [tplTail, tplFormat, strBytes_append, List.append_assoc]
  rw [h5]
  simp only [sectionMarkers, List.mem_cons, List.not_mem_nil, or_false] at hm
  rcases hm with h | h | h | h | h
  all_goals subst h
  · exact isInfix_app_right _ _ _ (isInfix_app_left _ _ _ (isInfix_self _))
  · exact isInfix_app_right _ _ _ (isInfix_app_right _ _ _ (isInfix_app_right _ _ _
      (isInfix_app_left _ _ _ (isInfix_self _))))
  · exact isInfix_app_right _ _ _ (isInfix_app_right _ _ _ (isInfix_app_right _ _ _
      (isInfix_app_right _ _ _ (isInfix_app_right _ _ _
      (isInfix_app_left _ _ _ (isInfix_self _))))))
  · exact isInfix_app_right _ _ _ (isInfix_app_right _ _ _ (isInfix_app_right _ _ _
      (isInfix_app_right _ _ _ (isInfix_app_right _ _ _ (isInfix_app_right _ _ _
      (isInfix_app_right _ _ _ (isInfix_app_left _ _ _ (isInfix_self _))))))))
  · exact isInfix_app_right _ _ _ (isInfix_app_right _ _ _ (isInfix_app_right _ _ _
      (isInfix_app_right _ _ _ (isInfix_app_right _ _ _ (isInfix_app_right _ _ _
      (isInfix_app_right _ _ _ (isInfix_app_right _ _ _ (isInfix_app_right _ _ _
      (isInfix_app_left _ _ _ (isInfix_self _))))))))))

/-- Every fixed section marker occurs in the filled analyst prompt,
whatever the CSV context and user query are. -/
theorem sectionMarkers_in_prompt (qB ctx m : List Nat) (hm : m ∈ sectionMarkers) :
    containsB (buildAnalystPrompt qB ctx) m = true := by
  have hT : strBytes analystTemplate =
      strBytes tplPre ++ strBytes ph1 ++
        (strBytes tplMid ++ strBytes ph2 ++ strBytes tplTail) := by
    simp only [analystTemplate, strBytes_append, List.append_assoc]
  have hcont1 : containsB (strBytes analystTemplate) (strBytes ph1) = true :=
    (containsB_iff _ _).mpr ⟨strBytes tplPre,
      strBytes tplMid ++ strBytes ph2 ++ strBytes tplTail, by rw [hT]⟩
  obtain ⟨p, q, hs, hres1, hmin⟩ :=
    replaceFirst_first_occurrence (strBytes analystTemplate) (strBytes ph1) ctx hcont1
  have hle : p.length ≤ (strBytes tplPre).length :=
    hmin (strBytes tplPre) (strBytes tplMid ++ strBytes ph2 ++ strBytes tplTail)
      (by rw [hT, List.append_assoc])
  have hq : q = (strBytes analystTemplate).drop (p.length + (strBytes ph1).length) := by
    rw [hs]
    have h2 : p.length + (strBytes ph1).length = (p ++ strBytes ph1).length :=
      (List.length_append _ _).symm
    rw [h2, List.drop_left]
  have htail_at : (strBytes ph2 ++ strBytes tplTail) <:+ q := by
    have hpos : strBytes ph2 ++ strBytes tplTail =
        (strBytes analystTemplate).drop
          ((strBytes tplPre ++ strBytes ph1 ++ strBytes tplMid).length) := by
      have hT2 : strBytes analystTemplate =
          (strBytes tplPre ++ strBytes ph1 ++ strBytes tplMid) ++
            (strBytes ph2 ++ strBytes tplTail) := by
        simp only [analystTemplate, strBytes_append, List.append_assoc]
      rw [hT2, List.drop_left]
    rw [hq, hpos]
    have hab : p.length + (strBytes ph1).length ≤
        (strBytes tplPre ++ strBytes ph1 ++ strBytes tplMid).length := by
      simp only [List.length_append]
      omega
    rw [drop_sub_drop (strBytes analystTemplate) _ _ hab]
    exact List.drop_suffix _ _
  obtain ⟨q0, hq0⟩ := htail_at
  have hs1 : replaceFirst (strBytes analystTemplate) (strBytes ph1) ctx =
      ((p ++ ctx) ++ q0) ++ strBytes ph2 ++ strBytes tplTail := by
    rw [hres1, ← hq0]
    simp [List.append_assoc]
  obtain ⟨p2, q2, hres2, hsuf⟩ :=
    replaceFirst_tail_suffix _ (strBytes ph2) qB ((p ++ ctx) ++ q0) (strBytes tplTail) hs1
  unfold buildAnalystPrompt
  rw [hres2]
  apply (containsB_iff _ _).mpr
  exact isInfix_app_right _ _ _ ((marker_mem_tail m hm).trans hsuf.isInfix)

/-- Claim C2: a user query containing `"resumen"` (one of the fixed
keywords, matched as a case-insensitive substring) is classified as
analytical by `POST /api/messages` and the prompt sent to the provider
is the analyst template with the CSV context and the query substituted
into its two placeholders, so it contains every fixed section marker;
a query in which no keyword occurs as a case-insensitive substring is
passed to the provider verbatim. -/
theorem analyst_prompt_behavior (files : List KnowledgeFile) (q : List Nat) :
    (containsB (goToLower q) (strBytes "resumen") = true →
      isAnalystQuery q = true ∧
      promptFor files q = buildAnalystPrompt q (buildFilesContext files) ∧
      sectionMarkers.all (fun m => containsB (promptFor files q) m) = true) ∧
    (keywords.all (fun kw => !containsB (goToLower q) kw) = true →
      promptFor files q = q) := by
  constructor
  · intro h
    have hq : isAnalystQuery q = true := by
      unfold isAnalystQuery
      rw [List.any_eq_true]
      exact ⟨strBytes "resumen", by decide, h⟩
    have hpf : promptFor files q = buildAnalystPrompt q (buildFilesContext files) := by
      simp [promptFor, useAnalyst, hq]
    refine ⟨hq, hpf, ?_⟩
    rw [List.all_eq_true]
    intro m hm
    rw [hpf]
    exact sectionMarkers_in_prompt q (buildFilesContext files) m hm
  · intro h
    have hq : isAnalystQuery q = false := by
      cases hb : isAnalystQuery q with
      | false => rfl
      | true =>
        exfalso
        unfold isAnalystQuery at hb
        rw [List.any_eq_true] at hb
        obtain ⟨kw, hkw, hc⟩ := hb
        rw [List.all_eq_true] at h
        have h2 := h kw hkw
        rw [hc] at h2
        simp at h2
    simp [promptFor, useAnalyst, hq]

/-- Witness for C2 with the query `"resumen"` and an empty store. -/
theorem analyst_prompt_behavior_witness :
    isAnalystQuery (strBytes "resumen") = true ∧
    promptFor [] (strBytes "resumen") =
      buildAnalystPrompt (strBytes "resumen") (buildFilesContext []) ∧
    sectionMarkers.all
      (fun m => containsB (promptFor [] (strBytes "resumen")) m) = true :=
  (analyst_prompt_behavior [] (strBytes "resumen")).1 (by decide)
